import Mathlib

/-!
Verification development for the value core of the eclisp interpreter
(`lang/value.go`): value variants, token recognizers and constructors, the
ordered classifier `getValue`, the conversion methods `to`, and the variable
resolver `getVarValue`.  Each Go function is shallowly embedded as an
executable Lean definition; `int64` is modelled as `Int` with explicit
`2 ^ 63` / `2 ^ 64` bounds, Go's `(Value, error)` pairs as
`Except String (Option Value)` (an interface value may be `nil`), and
fallible constructors as `Option Value`.
-/

namespace EcLisp

/-! ### Character helpers (ASCII classes used by strconv / regexp) -/

def isDigitCh (c : Char) : Bool := '0' ≤ c && c ≤ '9'

def isLowerCh (c : Char) : Bool := 'a' ≤ c && c ≤ 'z'

def isUpperCh (c : Char) : Bool := 'A' ≤ c && c ≤ 'Z'

def isAsciiLetterCh (c : Char) : Bool := isLowerCh c || isUpperCh c

/-- Go `strconv`'s `lower(c)`: fold ASCII upper case to lower case. -/
def lowerCh (c : Char) : Char :=
  if isUpperCh c then Char.ofNat (c.toNat + 32) else c

/-! ### The value-type tags (the `valueType` string constants of value.go) -/

inductive ValType where
  | stringType
  | intType
  | bigIntType
  | floatType
  | varType
  | boolType
  | astType
deriving DecidableEq

/-- The literal Go string constant each tag stands for (used in error text). -/
def ValType.str : ValType → String
  | .stringType => "stringType"
  | .intType => "intType"
  | .bigIntType => "bigIntType"
  | .floatType => "floatType"
  | .varType => "varType"
  | .boolType => "boolType"
  | .astType => "astType"

/-- `typeConvError(from, to)`: the "Cannot convert %s to %s" error message. -/
def typeConvError (fromT toT : ValType) : String :=
  "Cannot convert " ++ fromT.str ++ " to " ++ toT.str

/-- Modelled from the spec: `ASTNode` (the parse-tree node type) is an external
collaborator (§6); value.go only stores references to nodes and never inspects
them, so a node is modelled as an opaque reference (identified by a number). -/
structure ASTNode where
  nodeId : Nat
deriving DecidableEq

/-- Modelled from the spec: the operator-definition type held by the
environment's operator mapping is external; the resolver only tests a lookup
for presence (§4.3), so the definition is modelled as an opaque record. -/
structure OperatorDef where
  opName : String
deriving DecidableEq

/-- The payload of a `floatValue` (Go `float64`).  The scanner records the
exact scaled value of the literal before IEEE rounding (`finite m e` stands
for m·10^e, `finiteHex m e` for m·2^e); rounding to the nearest double is not
modelled, and no theorem below observes this payload's numeric value. -/
inductive GoFloat where
  | finite (mantissa : Int) (exp10 : Int)
  | finiteHex (mantissa : Int) (exp2 : Int)
  | inf (negative : Bool)
  | nan
deriving DecidableEq

/-- The `Value` interface of value.go as a closed sum of its seven
implementations, each carrying the fields of the corresponding Go struct. -/
inductive Value where
  | stringValue (value : String)
  | intValue (value : Int)
  | bigIntValue (value : Int)
  | floatValue (value : GoFloat)
  | varValue (value : String) (varName : String)
  | boolValue (value : Bool)
  | astValue (astNodes : List ASTNode) (parentASTNode : ASTNode)
deriving DecidableEq

/-- Modelled from the spec: `LangEnv` (external, §3) exposes two name-keyed
mappings, one from variable name to bound value and one from operator name to
operator definition; a Go map lookup returning `nil` is `none`. -/
structure LangEnv where
  varMap : String → Option Value
  opMap : String → Option OperatorDef

/-- `getValueType()` of each variant. -/
def Value.getValueType : Value → ValType
  | .stringValue _ => .stringType
  | .intValue _ => .intType
  | .bigIntValue _ => .bigIntType
  | .floatValue _ => .floatType
  | .varValue _ _ => .varType
  | .boolValue _ => .boolType
  | .astValue _ _ => .astType

/-- `big.Int.Int64()`: the low 64 bits of the value as two's complement
(math/big's behavior when the value does not fit; exact when it does). -/
def bigIntInt64 (v : Int) : Int :=
  if v % (2 ^ 64 : Int) < 2 ^ 63 then v % (2 ^ 64 : Int)
  else v % (2 ^ 64 : Int) - 2 ^ 64

/-- The `to(targetType)` method of every variant:
* `stringValue.to`: identity on `stringType`, otherwise `typeConvError`;
* `intValue.to`: identity on `intType`, `SetInt64` (exact) on `bigIntType`,
  `float64(v.value)` on `floatType` (IEEE rounding of the conversion is not
  modelled; no theorem observes the numeric payload), otherwise error;
* `bigIntValue.to`: on `intType` takes `Int64()` and compares it back with
  `Cmp`, succeeding only on equality; every other target errors;
* `floatValue.to`: identity on `floatType`, otherwise error;
* `varValue.to`, `boolValue.to`, `astValue.to`: always `typeConvError`. -/
def Value.to : Value → ValType → Except String Value
  | v@(.stringValue _), targetType =>
      if targetType = .stringType then .ok v
      else .error (typeConvError .stringType targetType)
  | v@(.intValue n), targetType =>
      if targetType = .intType then .ok v
      else if targetType = .bigIntType then .ok (.bigIntValue n)
      else if targetType = .floatType then .ok (.floatValue (.finite n 0))
      else .error (typeConvError .intType targetType)
  | .bigIntValue n, targetType =>
      if targetType = .intType then
        if n = bigIntInt64 n then .ok (.intValue (bigIntInt64 n))
        else .error (typeConvError .bigIntType targetType)
      else .error (typeConvError .bigIntType targetType)
  | v@(.floatValue _), targetType =>
      if targetType = .floatType then .ok v
      else .error (typeConvError .floatType targetType)
  | .varValue _ _, targetType => .error (typeConvError .varType targetType)
  | .boolValue _, targetType => .error (typeConvError .boolType targetType)
  | .astValue _ _, targetType => .error (typeConvError .astType targetType)

/-! ### The base-0 integer scanner shared by `strconv.ParseInt(s, 0, 64)`
(recognizer/constructor of `intValue`) and `big.Int.SetString(s, 0)`
(recognizer/constructor of `bigIntValue`).  Both accept an optional sign, the
base prefixes `0b`/`0o`/`0x` (any case), a legacy leading `0` selecting octal,
and underscores standing strictly between digits or between the base prefix
and a digit; they differ only in the 64-bit range check, applied afterwards
by `goParseInt64`. -/

/-- Digit value of a character in the given base (Go folds upper case via
`lower`); `none` on any character that is not a digit of the base. -/
def digitVal (base : Nat) (c : Char) : Option Nat :=
  let v : Nat :=
    if isDigitCh c then c.toNat - '0'.toNat
    else if isLowerCh c then c.toNat - 'a'.toNat + 10
    else if isUpperCh c then c.toNat - 'A'.toNat + 10
    else 100
  if v < base then some v else none

/-- Scan a digit run with underscore placement rules.  `prevDig` is true when
the previous character was a digit (or a base prefix, for the initial call),
`sawDig` when at least one digit (or the legacy `0`) has been consumed.  An
underscore must follow a digit/prefix, the run must end in a digit, and at
least one digit must have been seen. -/
def scanDigits (base : Nat) : List Char → Bool → Bool → Nat → Option Nat
  | [], prevDig, sawDig, acc => if prevDig && sawDig then some acc else none
  | c :: rest, prevDig, sawDig, acc =>
      if c = '_' then
        if prevDig then scanDigits base rest false sawDig acc else none
      else
        match digitVal base c with
        | some d => scanDigits base rest true true (acc * base + d)
        | none => none

/-- Strip one optional leading sign; returns (isNegative, remainder). -/
def scanSign (cs : List Char) : Bool × List Char :=
  match cs with
  | c :: r => if c = '-' then (true, r) else if c = '+' then (false, r) else (false, cs)
  | [] => (false, [])

def applySign (neg : Bool) (n : Nat) : Int :=
  if neg then -(n : Int) else (n : Int)

/-- Base detection and digit scan after the sign, per Go's base-0 rules. -/
def scanIntBody (neg : Bool) : List Char → Option Int
  | [] => none
  | c :: ds =>
      if c = '0' then
        match ds with
        | [] => some (applySign neg 0)
        | b :: ds2 =>
            if lowerCh b = 'b' then (scanDigits 2 ds2 true false 0).map (applySign neg)
            else if lowerCh b = 'o' then (scanDigits 8 ds2 true false 0).map (applySign neg)
            else if lowerCh b = 'x' then (scanDigits 16 ds2 true false 0).map (applySign neg)
            else (scanDigits 8 (b :: ds2) true true 0).map (applySign neg)
      else (scanDigits 10 (c :: ds) false false 0).map (applySign neg)

/-- The exact integer denoted by a base-0 token, or `none` on a syntax error:
the common core of `strconv.ParseInt(s, 0, 64)` and `big.Int.SetString(s, 0)`
(which fail on exactly the same tokens; `ParseInt` additionally range-checks,
see `goParseInt64`). -/
def goScanInt (s : String) : Option Int :=
  let nr := scanSign s.data
  scanIntBody nr.1 nr.2

def int64Min : Int := -(2 ^ 63)

def int64Max : Int := 2 ^ 63 - 1

/-- `strconv.ParseInt(s, 0, 64)`: the scanned value if it fits a 64-bit
signed integer, `none` on a syntax or range error (the caller only tests
`err != nil`, so the two error kinds need not be distinguished). -/
def goParseInt64 (s : String) : Option Int :=
  (goScanInt s).bind fun v => if int64Min ≤ v ∧ v ≤ int64Max then some v else none

/-! ### `strconv.ParseFloat(s, 64)` (recognizer/constructor of `floatValue`).
Syntax: optional sign; the special spellings `inf`/`infinity`/`nan` (any
case); a hex mantissa with mandatory `p` exponent after `0x`/`0X`; or a
decimal mantissa with at most one dot and an optional `e` exponent.
Underscores stand strictly between digits.  A value that overflows to
infinity, or a nonzero value that underflows to zero, yields `ErrRange`
(hence `none` here, since the callers only test `err != nil`). -/

/-- Scan a mantissa in the given base: digits with at most one `.` and with
underscores between digits; returns (accumulated digits, number of digits
after the dot, whether a digit was seen, unconsumed rest).  `prevDig` is true
when the previous character was a digit (initially true only after a hex
prefix, which counts as one). -/
def scanMant (base : Nat) :
    List Char → Nat → Nat → Bool → Bool → Bool → Nat × Nat × Bool × List Char
  | [], acc, fracDigits, sawDig, _, _ => (acc, fracDigits, sawDig, [])
  | c :: rest, acc, fracDigits, sawDig, sawDot, prevDig =>
      match digitVal base c with
      | some d =>
          scanMant base rest (acc * base + d)
            (if sawDot then fracDigits + 1 else fracDigits) true sawDot true
      | none =>
          if c = '.' then
            if sawDot then (acc, fracDigits, sawDig, c :: rest)
            else scanMant base rest acc fracDigits sawDig true false
          else if c = '_' then
            if prevDig && ((rest.head?.map fun c2 => (digitVal base c2).isSome).getD false) then
              scanMant base rest acc fracDigits sawDig sawDot false
            else (acc, fracDigits, sawDig, c :: rest)
          else (acc, fracDigits, sawDig, c :: rest)

/-- Scan an exponent part (after `e`/`E`/`p`/`P`): optional sign, then a
nonempty underscore-separated digit run that must reach the end of the
token. -/
def scanExp (ds : List Char) : Option Int :=
  match ds with
  | c :: r =>
      if c = '-' then (scanDigits 10 r false false 0).map fun n => -(n : Int)
      else if c = '+' then (scanDigits 10 r false false 0).map fun n => (n : Int)
      else (scanDigits 10 ds false false 0).map fun n => (n : Int)
  | [] => none

/-- The overflow-to-infinity bound of float64: an exact decimal value of
magnitude ≥ 2^1024 − 2^970 rounds to infinity (round to nearest, ties to
even), which `ParseFloat` reports as `ErrRange`. -/
def f64OverflowBound : Nat := 2 ^ 1024 - 2 ^ 970

/-- Does m·10^e (m ≥ 0) reach the overflow bound?  Exact integer test. -/
def decOverflow (m : Nat) (e : Int) : Bool :=
  if 0 ≤ e then f64OverflowBound ≤ m * 10 ^ e.toNat
  else f64OverflowBound * 10 ^ (-e).toNat ≤ m

/-- Does a nonzero m·10^e underflow to zero (magnitude ≤ 2^(−1075), half the
smallest subnormal)?  The exact tie behavior at the boundary is modelled
approximately; no theorem depends on tokens near it. -/
def decUnderflow (m : Nat) (e : Int) : Bool :=
  m ≠ 0 && (if 0 ≤ e then m * 10 ^ e.toNat * 2 ^ 1075 ≤ 1
            else m * 2 ^ 1075 ≤ 10 ^ (-e).toNat)

def hexOverflow (m : Nat) (e : Int) : Bool :=
  if 0 ≤ e then f64OverflowBound ≤ m * 2 ^ e.toNat
  else f64OverflowBound * 2 ^ (-e).toNat ≤ m

def hexUnderflow (m : Nat) (e : Int) : Bool :=
  m ≠ 0 && (if 0 ≤ e + 1075 then m * 2 ^ (e + 1075).toNat ≤ 1
            else m ≤ 2 ^ (-(e + 1075)).toNat)

def mkDecFloat (neg : Bool) (m : Nat) (e : Int) : Option GoFloat :=
  if decOverflow m e then none
  else if decUnderflow m e then none
  else some (.finite (applySign neg m) e)

def mkHexFloat (neg : Bool) (m : Nat) (e : Int) : Option GoFloat :=
  if hexOverflow m e then none
  else if hexUnderflow m e then none
  else some (.finiteHex (applySign neg m) e)

/-- Decimal branch of `ParseFloat` (after the sign): mantissa, then an
optional `e`/`E` exponent that must consume the rest of the token. -/
def goParseDecFloat (neg : Bool) (ds : List Char) : Option GoFloat :=
  match scanMant 10 ds 0 0 false false false with
  | (m, fracDigits, sawDig, rest) =>
      if !sawDig then none
      else
        match rest with
        | [] => mkDecFloat neg m (-(fracDigits : Int))
        | c :: es =>
            if c = 'e' || c = 'E' then
              (scanExp es).bind fun e => mkDecFloat neg m (e - fracDigits)
            else none

/-- Hex branch of `ParseFloat` (after the sign and the `0x` prefix): hex
mantissa (each fractional hex digit is 4 bits), then a mandatory `p`/`P`
exponent of two. -/
def goParseHexFloat (neg : Bool) (ds : List Char) : Option GoFloat :=
  match scanMant 16 ds 0 0 false false true with
  | (m, fracDigits, sawDig, rest) =>
      if !sawDig then none
      else
        match rest with
        | c :: es =>
            if c = 'p' || c = 'P' then
              (scanExp es).bind fun e => mkHexFloat neg m (e - 4 * fracDigits)
            else none
        | [] => none

def lowerList (l : List Char) : List Char := l.map lowerCh

/-- `strconv.ParseFloat(s, 64)` up to the unmodelled IEEE rounding of the
resulting payload: `none` exactly on a syntax or range error. -/
def goParseFloat (s : String) : Option GoFloat :=
  let nr := scanSign s.data
  let neg := nr.1
  let rest := nr.2
  if rest = [] then none
  else if lowerList rest = "inf".data || lowerList rest = "infinity".data then
    some (.inf neg)
  else if lowerList rest = "nan".data then some .nan
  else
    match rest with
    | '0' :: x :: rest2 =>
        if lowerCh x = 'x' then goParseHexFloat neg rest2
        else goParseDecFloat neg rest
    | _ => goParseDecFloat neg rest

/-! ### Recognizers (`ofType`) and constructors (`newValue`) of each variant.
A Go `newValue` returning the `nil` interface value is `none`. -/

/-- `stringValue.ofType`: length at least 2 and matching quote characters at
both ends (no interior-quote validation — the "TODO" in the source). -/
def stringOfType (targetValue : String) : Bool :=
  match targetValue.data with
  | f :: c2 :: rest =>
      let l := (c2 :: rest).getLastD ' '
      (f = '\'' && l = '\'') || (f = '"' && l = '"')
  | _ => false

/-- `stringValue.newValue`: stores the token itself (quotes included). -/
def stringNewValue (str : String) : Option Value :=
  some (.stringValue str)

def intOfType (targetValue : String) : Bool :=
  (goParseInt64 targetValue).isSome

def intNewValue (str : String) : Option Value :=
  (goParseInt64 str).map fun v => .intValue v

def bigIntOfType (targetValue : String) : Bool :=
  (goScanInt targetValue).isSome

def bigIntNewValue (str : String) : Option Value :=
  (goScanInt str).map fun v => .bigIntValue v

def floatOfType (targetValue : String) : Bool :=
  (goParseFloat targetValue).isSome

def floatNewValue (str : String) : Option Value :=
  (goParseFloat str).map fun v => .floatValue v

/-- `varValue.ofType` calls `regexp.MatchString("[a-zA-Z]+[a-zA-Z0-9]*", v)`.
The pattern is unanchored, so it succeeds iff some substring matches, and a
single ASCII letter already matches the pattern (one letter for the `+`, the
`*` taking nothing); conversely any match begins with a letter.  Hence the
call succeeds iff the token contains at least one ASCII letter. -/
def varOfType (targetValue : String) : Bool :=
  targetValue.data.any isAsciiLetterCh

/-- `varValue.newValue`: stores the token as both `value` and `varName`. -/
def varNewValue (str : String) : Option Value :=
  some (.varValue str str)

/-- `boolValue.ofType`: exactly `true` or `false`. -/
def boolOfType (targetValue : String) : Bool :=
  targetValue = "true" || targetValue = "false"

/-- `boolValue.newValue`: total; true exactly on the token `true`. -/
def boolNewValue (str : String) : Option Value :=
  some (.boolValue (if str = "true" then true else false))

def astOfType (_ : String) : Bool := false

def astNewValue (_ : String) : Option Value := none

def newBoolValue (b : Bool) : Value := .boolValue b

def newASTValue (parentNode : ASTNode) (children : List ASTNode) : Value :=
  .astValue (children.drop 1) parentNode

/-! ### The type registry and the classifier `getValue` -/

def ofTypeFor : ValType → String → Bool
  | .stringType, t => stringOfType t
  | .intType, t => intOfType t
  | .bigIntType, t => bigIntOfType t
  | .floatType, t => floatOfType t
  | .varType, t => varOfType t
  | .boolType, t => boolOfType t
  | .astType, t => astOfType t

def newValueFor : ValType → String → Option Value
  | .stringType, t => stringNewValue t
  | .intType, t => intNewValue t
  | .bigIntType, t => bigIntNewValue t
  | .floatType, t => floatNewValue t
  | .varType, t => varNewValue t
  | .boolType, t => boolNewValue t
  | .astType, t => astNewValue t

/-- Modelled from the spec: the registry `builtinTypes()` called by `getValue`
is not among the provided sources; §4.2 fixes its order as String, Int,
BigInt, Float, Bool, Var, with Ast excluded from the registry. -/
def builtinTypes : List ValType :=
  [.stringType, .intType, .bigIntType, .floatType, .boolType, .varType]

/-- The classifier loop of `getValue`: first registered type whose `ofType`
accepts the token wins, its `newValue` result (possibly the `nil` value) is
returned with a `nil` error; if none accepts, an error is returned. -/
def classifyWith : List ValType → String → Except String (Option Value)
  | [], token => .error ("Could not get type for token: " ++ token)
  | t :: rest, token =>
      if ofTypeFor t token then .ok (newValueFor t token)
      else classifyWith rest token

/-- `getValue(env, token)` (the env parameter is unused in the source). -/
def getValue (_env : LangEnv) (token : String) : Except String (Option Value) :=
  classifyWith builtinTypes token

/-! ### The variable resolver `getVarValue` -/

/-- `getVarValue(env, varVal)`: for a non-nil `varValue`, look the name up in
`env.varMap` (returning the bound value), then in `env.opMap` (returning the
original `varValue` unchanged), else fail naming the variable; any other
argument fails with the generic resolution error. -/
def getVarValue (env : LangEnv) (varVal : Option Value) : Except String Value :=
  match varVal with
  | some (.varValue value varName) =>
      match env.varMap varName with
      | some val => .ok val
      | none =>
          match env.opMap varName with
          | some _ => .ok (.varValue value varName)
          | none => .error ("Undefined variable: " ++ varName)
  | _ => .error "Error while resolving variable."

/-! ### Rendering (`Str()`).  `floatValue.Str` (strconv.FormatFloat) and
`astValue.Str` (the external pretty-printer `getASTStr`) are not embedded:
no settled claim observes them. -/

def digitChar (d : Nat) : Char := Char.ofNat ('0'.toNat + d)

/-- Decimal digits of n, least significant first, with explicit fuel (any
fuel ≥ n suffices); mirrors the repeated division of `strconv.FormatInt`. -/
def natDigitsRev : Nat → Nat → List Nat
  | 0, _ => []
  | fuel + 1, n => if n = 0 then [] else n % 10 :: natDigitsRev fuel (n / 10)

/-- Decimal rendering of a natural number. -/
def natDecimal (n : Nat) : String :=
  if n = 0 then "0" else ⟨(natDigitsRev n n).reverse.map digitChar⟩

/-- `strconv.FormatInt(v, 10)`, also `big.Int.String()`: sign and decimal
digits. -/
def intStr (v : Int) : String :=
  if v < 0 then "-" ++ natDecimal (-v).toNat else natDecimal v.toNat

/-- The `Str()` methods whose rendering is embedded (`floatValue.Str` and
`astValue.Str` delegate to strconv.FormatFloat and to the external
pretty-printer and are not modelled). -/
def renderOf : Value → Option String
  | .stringValue s => some s
  | .intValue n => some (intStr n)
  | .bigIntValue n => some (intStr n)
  | .varValue s _ => some s
  | .boolValue b => some (if b then "true" else "false")
  | _ => none

/-! ### Spec-side definition for the refinement claim C6 -/

/-- The recognizer the spec describes for `Var` (claim C6): the WHOLE token
matches `[letter][letter|digit]*`.  Written from the spec's words, to be
compared with the source's `varOfType`. -/
def specAnchoredVar (t : String) : Bool :=
  match t.data with
  | c :: rest => isAsciiLetterCh c && rest.all fun c2 => isAsciiLetterCh c2 || isDigitCh c2
  | [] => false

/-- An empty environment (both maps everywhere nil), for concrete runs. -/
def env0 : LangEnv := ⟨fun _ => none, fun _ => none⟩

/-! ## Helper lemmas -/

lemma bigIntInt64_eq_self {n : Int} (h1 : int64Min ≤ n) (h2 : n ≤ int64Max) :
    bigIntInt64 n = n := by
  unfold bigIntInt64
  simp only [int64Min, int64Max] at h1 h2
  have h0 : 0 ≤ n % (2 ^ 64 : Int) := Int.emod_nonneg n (by norm_num)
  have hlt : n % (2 ^ 64 : Int) < 2 ^ 64 := Int.emod_lt_of_pos n (by norm_num)
  have hdvd : n - n % (2 ^ 64 : Int) = 2 ^ 64 * (n / 2 ^ 64) := by
    rw [Int.emod_def]; ring
  set k := n / (2 ^ 64 : Int) with hk
  split_ifs with hcase <;> omega

lemma bigIntInt64_bounds (n : Int) :
    int64Min ≤ bigIntInt64 n ∧ bigIntInt64 n ≤ int64Max := by
  unfold bigIntInt64
  simp only [int64Min, int64Max]
  have h0 : 0 ≤ n % (2 ^ 64 : Int) := Int.emod_nonneg n (by norm_num)
  have hlt : n % (2 ^ 64 : Int) < 2 ^ 64 := Int.emod_lt_of_pos n (by norm_num)
  split_ifs with hcase <;> omega

lemma bigIntTo_int_ok {n : Int} (h1 : int64Min ≤ n) (h2 : n ≤ int64Max) :
    (Value.bigIntValue n).to .intType = .ok (.intValue n) := by
  have h := bigIntInt64_eq_self h1 h2
  simp [Value.to, h]

lemma bigIntTo_int_err {n : Int} (h : ¬(int64Min ≤ n ∧ n ≤ int64Max)) :
    (Value.bigIntValue n).to .intType = .error (typeConvError .bigIntType .intType) := by
  have hb := bigIntInt64_bounds n
  have hne : n ≠ bigIntInt64 n := by
    intro he
    exact h ⟨he ▸ hb.1, he ▸ hb.2⟩
  simp [Value.to, hne]

/-! ## Claim C1 — identity conversion -/

/-- C1 (counterexample): the claim "converting a value of tag T to target tag
T succeeds ... for all seven variants" is false: `boolValue.to(boolType)`
fails with a conversion error (its `to` has no case at all). -/
theorem identity_conversion_c1_cex :
    (Value.boolValue true).to .boolType =
      .error "Cannot convert boolType to boolType" := rfl

/-- C1 (amended): conversion to the value's own tag succeeds and returns the
original only for the String, Int and Float variants; for BigInt, Var, Bool
and Ast it fails with the "Cannot convert T to T" type-conversion error. -/
theorem identity_conversion_c1 (v : Value) :
    (v.getValueType = .stringType ∨ v.getValueType = .intType ∨
        v.getValueType = .floatType →
      v.to v.getValueType = .ok v) ∧
    (v.getValueType = .bigIntType ∨ v.getValueType = .varType ∨
        v.getValueType = .boolType ∨ v.getValueType = .astType →
      v.to v.getValueType = .error (typeConvError v.getValueType v.getValueType)) := by
  cases v <;> simp [Value.getValueType, Value.to]

/-- Witness for C1's amended theorem at one concrete value per variant. -/
theorem identity_conversion_c1_witness :
    (Value.stringValue "s").to .stringType = .ok (.stringValue "s") ∧
    (Value.intValue 3).to .intType = .ok (.intValue 3) ∧
    (Value.floatValue .nan).to .floatType = .ok (.floatValue .nan) ∧
    (Value.bigIntValue 7).to .bigIntType = .error (typeConvError .bigIntType .bigIntType) ∧
    (Value.varValue "x" "x").to .varType = .error (typeConvError .varType .varType) ∧
    (Value.boolValue false).to .boolType = .error (typeConvError .boolType .boolType) ∧
    (Value.astValue [] ⟨0⟩).to .astType = .error (typeConvError .astType .astType) :=
  ⟨(identity_conversion_c1 (.stringValue "s")).1 (Or.inl rfl),
   (identity_conversion_c1 (.intValue 3)).1 (Or.inr (Or.inl rfl)),
   (identity_conversion_c1 (.floatValue .nan)).1 (Or.inr (Or.inr rfl)),
   (identity_conversion_c1 (.bigIntValue 7)).2 (Or.inl rfl),
   (identity_conversion_c1 (.varValue "x" "x")).2 (Or.inr (Or.inl rfl)),
   (identity_conversion_c1 (.boolValue false)).2 (Or.inr (Or.inr (Or.inl rfl))),
   (identity_conversion_c1 (.astValue [] ⟨0⟩)).2 (Or.inr (Or.inr (Or.inr rfl)))⟩

/-! ## Claim C4 — BigInt → Int conversion guard -/

/-- C4: converting a BigInt value to Int succeeds with the exact same value
iff the value fits a 64-bit signed integer, and fails with the conversion
error otherwise. -/
theorem bigint_to_int_c4 (n : Int) :
    (int64Min ≤ n ∧ n ≤ int64Max →
      (Value.bigIntValue n).to .intType = .ok (.intValue n)) ∧
    (¬(int64Min ≤ n ∧ n ≤ int64Max) →
      (Value.bigIntValue n).to .intType =
        .error (typeConvError .bigIntType .intType)) :=
  ⟨fun h => bigIntTo_int_ok h.1 h.2, fun h => bigIntTo_int_err h⟩

/-- Witness for C4 at the in-range value 5 and the out-of-range value 2^63. -/
theorem bigint_to_int_c4_witness :
    (Value.bigIntValue 5).to .intType = .ok (.intValue 5) ∧
    (Value.bigIntValue (2 ^ 63)).to .intType =
      .error (typeConvError .bigIntType .intType) :=
  ⟨(bigint_to_int_c4 5).1 (by constructor <;> decide),
   (bigint_to_int_c4 (2 ^ 63)).2 (by decide)⟩

/-! ## Claim C5 — Int → BigInt is exact and round-trips -/

/-- C5: for every Int value (64-bit signed payload), conversion to BigInt
succeeds with the exact same integer, and converting that result back to Int
yields the original value. -/
theorem int_bigint_roundtrip_c5 (n : Int)
    (h1 : int64Min ≤ n) (h2 : n ≤ int64Max) :
    (Value.intValue n).to .bigIntType = .ok (.bigIntValue n) ∧
    ((Value.intValue n).to .bigIntType).bind (fun w => w.to .intType) =
      .ok (.intValue n) := by
  refine ⟨rfl, ?_⟩
  show (Value.bigIntValue n).to .intType = _
  exact bigIntTo_int_ok h1 h2

/-- Witness for C5 at the value 42. -/
theorem int_bigint_roundtrip_c5_witness :
    (Value.intValue 42).to .bigIntType = .ok (.bigIntValue 42) ∧
    ((Value.intValue 42).to .bigIntType).bind (fun w => w.to .intType) =
      .ok (.intValue 42) :=
  int_bigint_roundtrip_c5 42 (by decide) (by decide)

/-! ## Claim C3 — variable resolution -/

/-- C3: for every Var value and environment, resolution returns the bound
value when the name is in the variable map, returns the original Var
unchanged when the name is only in the operator map, and otherwise fails with
the "Undefined variable: <name>" error, which contains the name. -/
theorem resolve_var_c3 (env : LangEnv) (value varName : String) :
    (∀ v, env.varMap varName = some v →
      getVarValue env (some (.varValue value varName)) = .ok v) ∧
    (env.varMap varName = none → ∀ op, env.opMap varName = some op →
      getVarValue env (some (.varValue value varName)) =
        .ok (.varValue value varName)) ∧
    (env.varMap varName = none → env.opMap varName = none →
      getVarValue env (some (.varValue value varName)) =
        .error ("Undefined variable: " ++ varName)) := by
  refine ⟨fun v hv => ?_, fun hv op hop => ?_, fun hv hop => ?_⟩ <;>
    simp [getVarValue, hv]
  · rw [hop]
  · rw [hop]

/-- A concrete environment: variable `x` bound to `Int 5`, operator `+`
registered, nothing else. -/
def envX : LangEnv :=
  ⟨fun s => if s = "x" then some (.intValue 5) else none,
   fun s => if s = "+" then some ⟨"+"⟩ else none⟩

/-- Witness for C3: the three branches at the environment `envX`. -/
theorem resolve_var_c3_witness :
    getVarValue envX (some (.varValue "x" "x")) = .ok (.intValue 5) ∧
    getVarValue envX (some (.varValue "+" "+")) = .ok (.varValue "+" "+") ∧
    getVarValue envX (some (.varValue "y" "y")) =
      .error ("Undefined variable: " ++ "y") :=
  ⟨(resolve_var_c3 envX "x" "x").1 (.intValue 5) rfl,
   (resolve_var_c3 envX "+" "+").2.1 rfl ⟨"+"⟩ rfl,
   (resolve_var_c3 envX "y" "y").2.2 rfl rfl⟩

/-! ## Claim C6 — the Var recognizer -/

/-- C6 (counterexample): the claim "Var.recognize accepts iff the whole token
matches [letter][letter|digit]*" is false: the regexp call is unanchored, so
the token "1a" (leading digit) and the token "a!" (punctuation) are both
accepted although the anchored pattern rejects them. -/
theorem var_recognizer_c6_cex :
    varOfType "1a" = true ∧ specAnchoredVar "1a" = false ∧
    varOfType "a!" = true ∧ specAnchoredVar "a!" = false := by
  refine ⟨rfl, rfl, rfl, rfl⟩

/-- C6 (amended): `varValue.ofType` accepts a token iff it contains at least
one ASCII letter anywhere (the unanchored `[a-zA-Z]+[a-zA-Z0-9]*` match); in
particular it accepts every token of the spec's anchored identifier shape,
but also tokens that merely contain a letter. -/
theorem var_recognizer_c6_amended (t : String) :
    (varOfType t = true ↔ ∃ c ∈ t.data, isAsciiLetterCh c = true) ∧
    (specAnchoredVar t = true → varOfType t = true) := by
  constructor
  · simp [varOfType, List.any_eq_true]
  · intro h
    unfold specAnchoredVar at h
    unfold varOfType
    cases hd : t.data with
    | nil => rw [hd] at h; exact absurd h (by simp)
    | cons c rest =>
        rw [hd] at h
        simp only [Bool.and_eq_true] at h
        simp [List.any_eq_true]
        exact Or.inl h.1

/-- Witness for C6's amended theorem at the token "abc". -/
theorem var_recognizer_c6_witness : varOfType "abc" = true :=
  (var_recognizer_c6_amended "abc").2 (by decide)

/-! ## Claim C7 — String payload keeps the quotes -/

/-- C7 (counterexample): the claim "the constructed String value's payload
excludes the delimiting quote characters" is false: constructing from the
accepted token `'ab'` stores the whole token, quotes included (the payload is
`'ab'`, not `ab`), and rendering returns it verbatim. -/
theorem string_payload_c7_cex :
    stringOfType "'ab'" = true ∧
    stringNewValue "'ab'" = some (.stringValue "'ab'") ∧
    renderOf (.stringValue "'ab'") = some "'ab'" ∧
    (decide (("'ab'" : String) = "ab")) = false := by
  refine ⟨rfl, rfl, rfl, by decide⟩

/-- C7 (amended): for every token the String recognizer accepts, the
constructed value's payload is the entire token, delimiting quotes included,
and its rendering is that same text. -/
theorem string_payload_c7_amended (t : String) (_h : stringOfType t = true) :
    stringNewValue t = some (.stringValue t) ∧
    renderOf (.stringValue t) = some t :=
  ⟨rfl, rfl⟩

/-- Witness for C7's amended theorem at the token `'ab'`. -/
theorem string_payload_c7_witness :
    stringNewValue "'ab'" = some (.stringValue "'ab'") ∧
    renderOf (.stringValue "'ab'") = some "'ab'" :=
  string_payload_c7_amended "'ab'" rfl

/-! ## Claim C10 — Bool construction is total -/

/-- C10: `boolValue.newValue` never fails: it returns the Bool value `true`
exactly on the token "true" and `false` on every other string, including
strings the Bool recognizer rejects. -/
theorem bool_construct_total_c10 (s : String) :
    (s = "true" → boolNewValue s = some (.boolValue true)) ∧
    (s ≠ "true" → boolNewValue s = some (.boolValue false)) := by
  constructor
  · intro h; subst h; rfl
  · intro h; simp [boolNewValue, h]

/-- Witness for C10 at the tokens "true" and "banana" (the latter rejected by
the Bool recognizer but still constructed as false). -/
theorem bool_construct_total_c10_witness :
    boolNewValue "true" = some (.boolValue true) ∧
    boolNewValue "banana" = some (.boolValue false) :=
  ⟨(bool_construct_total_c10 "true").1 rfl,
   (bool_construct_total_c10 "banana").2 (by decide)⟩

/-! ## Claim C2 — classification precedence on the four spec tokens -/

set_option maxRecDepth 4000 in
/-- C2: "5" classifies as Int (not Float or BigInt), the 20-digit token as
BigInt, "3.14" as Float, and "true" as Bool (not Var), following the registry
order. -/
theorem classify_precedence_c2 :
    getValue env0 "5" = .ok (some (.intValue 5)) ∧
    getValue env0 "99999999999999999999" =
      .ok (some (.bigIntValue 99999999999999999999)) ∧
    getValue env0 "3.14" = .ok (some (.floatValue (.finite 314 (-2)))) ∧
    getValue env0 "true" = .ok (some (.boolValue true)) := by
  refine ⟨rfl, rfl, rfl, rfl⟩

/-! ## Claim C9 — a recognized token never yields a nil value with nil error -/

lemma ofType_newValue_isSome (t : ValType) (token : String)
    (h : ofTypeFor t token = true) : ∃ v, newValueFor t token = some v := by
  cases t
  case stringType => exact ⟨_, rfl⟩
  case intType =>
      simp only [ofTypeFor, intOfType, Option.isSome_iff_exists] at h
      obtain ⟨v, hv⟩ := h
      exact ⟨.intValue v, by simp [newValueFor, intNewValue, hv]⟩
  case bigIntType =>
      simp only [ofTypeFor, bigIntOfType, Option.isSome_iff_exists] at h
      obtain ⟨v, hv⟩ := h
      exact ⟨.bigIntValue v, by simp [newValueFor, bigIntNewValue, hv]⟩
  case floatType =>
      simp only [ofTypeFor, floatOfType, Option.isSome_iff_exists] at h
      obtain ⟨v, hv⟩ := h
      exact ⟨.floatValue v, by simp [newValueFor, floatNewValue, hv]⟩
  case varType => exact ⟨_, rfl⟩
  case boolType => exact ⟨_, rfl⟩
  case astType => exact absurd h (by simp [ofTypeFor, astOfType])

lemma classifyWith_no_ok_none (ts : List ValType) (token : String) :
    (∃ e, classifyWith ts token = .error e) ∨
    (∃ v, classifyWith ts token = .ok (some v)) := by
  induction ts with
  | nil => exact .inl ⟨_, rfl⟩
  | cons t rest ih =>
      by_cases h : ofTypeFor t token
      · obtain ⟨v, hv⟩ := ofType_newValue_isSome t token h
        exact .inr ⟨v, by simp [classifyWith, h, hv]⟩
      · have : classifyWith (t :: rest) token = classifyWith rest token := by
          simp [classifyWith, h]
        rw [this]; exact ih

/-- C9: for every environment and token, `getValue` returns either an error
or an actual value — never a nil value with a nil error (equivalently:
whenever a registered recognizer accepts a token, the corresponding
constructor succeeds, because recognizer and constructor share one parse). -/
theorem classifier_no_silent_nil_c9 (env : LangEnv) (token : String) :
    (∃ e, getValue env token = .error e) ∨
    (∃ v, getValue env token = .ok (some v)) :=
  classifyWith_no_ok_none builtinTypes token

/-! ## Decimal-rendering round-trip lemmas (for claim C8) -/

lemma natDigitsRev_zero (fuel : Nat) : natDigitsRev fuel 0 = [] := by
  cases fuel <;> simp [natDigitsRev]

lemma natDigitsRev_lt10 (fuel : Nat) : ∀ n d, d ∈ natDigitsRev fuel n → d < 10 := by
  induction fuel with
  | zero => intro n d h; simp [natDigitsRev] at h
  | succ f ih =>
      intro n d h
      by_cases hn : n = 0
      · simp [natDigitsRev, hn] at h
      · simp only [natDigitsRev, if_neg hn, List.mem_cons] at h
        rcases h with h | h
        · omega
        · exact ih _ _ h

lemma natDigitsRev_ne_nil {fuel n : Nat} (h1 : 1 ≤ n) (h2 : 1 ≤ fuel) :
    natDigitsRev fuel n ≠ [] := by
  cases fuel with
  | zero => omega
  | succ f =>
      simp only [natDigitsRev, if_neg (by omega : ¬ n = 0)]
      exact List.cons_ne_nil _ _

lemma natDigitsRev_getLast?_pos {fuel : Nat} : ∀ {n d : Nat}, 1 ≤ n → n ≤ fuel →
    (natDigitsRev fuel n).getLast? = some d → 1 ≤ d := by
  induction fuel with
  | zero => intro n d h1 h2 _; omega
  | succ f ih =>
      intro n d h1 h2 hl
      simp only [natDigitsRev, if_neg (by omega : ¬ n = 0)] at hl
      by_cases hq : n / 10 = 0
      · rw [hq, natDigitsRev_zero] at hl
        simp only [List.getLast?_singleton, Option.some_inj] at hl
        omega
      · have hf1 : 1 ≤ f := by omega
        have hne : natDigitsRev f (n / 10) ≠ [] :=
          natDigitsRev_ne_nil (by omega) hf1
        obtain ⟨x, xs, hxs⟩ := List.exists_cons_of_ne_nil hne
        rw [hxs, List.getLast?_cons_cons, ← hxs] at hl
        exact ih (by omega) (by omega) hl

lemma natDigitsRev_foldl {fuel : Nat} : ∀ {n : Nat} (a : Nat), n ≤ fuel →
    (natDigitsRev fuel n).reverse.foldl (fun x d => x * 10 + d) a =
      a * 10 ^ (natDigitsRev fuel n).length + n := by
  induction fuel with
  | zero =>
      intro n a h
      have : n = 0 := by omega
      subst this
      simp [natDigitsRev]
  | succ f ih =>
      intro n a h
      by_cases hn : n = 0
      · subst hn; simp [natDigitsRev]
      · simp only [natDigitsRev, if_neg hn, List.reverse_cons, List.foldl_append,
          List.foldl_cons, List.foldl_nil, List.length_cons]
        rw [ih a (by omega)]
        rw [pow_succ, ← mul_assoc]
        generalize a * 10 ^ (natDigitsRev f (n / 10)).length = M
        omega

lemma digitChar_facts {d : Nat} (h : d < 10) :
    digitChar d ≠ '_' ∧ digitChar d ≠ '-' ∧ digitChar d ≠ '+' ∧
    digitChar d ≠ '\'' ∧ digitChar d ≠ '"' ∧ (digitChar d = '0' ↔ d = 0) := by
  interval_cases d <;> refine ⟨by decide, by decide, by decide, by decide, by decide, by decide⟩

lemma digitVal10_digitChar {d : Nat} (h : d < 10) :
    digitVal 10 (digitChar d) = some d := by
  interval_cases d <;> rfl

lemma scanDigits_digits : ∀ (L : List Nat) (p s : Bool) (a : Nat),
    (∀ d ∈ L, d < 10) → L ≠ [] →
    scanDigits 10 (L.map digitChar) p s a =
      some (L.foldl (fun x d => x * 10 + d) a) := by
  intro L
  induction L with
  | nil => intro p s a _ h; exact absurd rfl h
  | cons d L' ih =>
      intro p s a hlt _
      have hd : d < 10 := hlt d (.head _)
      have hf := digitChar_facts hd
      simp only [List.map_cons, scanDigits, if_neg hf.1, digitVal10_digitChar hd]
      cases L' with
      | nil => simp [scanDigits]
      | cons e L'' =>
          rw [ih true true (a * 10 + d) (fun x hx => hlt x (List.mem_cons_of_mem _ hx))
            (List.cons_ne_nil _ _)]
          simp [List.foldl_cons]

lemma natDecimal_spec {n : Nat} (h : 1 ≤ n) :
    ∃ d L, d < 10 ∧ d ≠ 0 ∧
      (natDecimal n).data = digitChar d :: L.map digitChar ∧
      d :: L = (natDigitsRev n n).reverse := by
  have hne := natDigitsRev_ne_nil h h
  have hrevne : (natDigitsRev n n).reverse ≠ [] := by simpa using hne
  obtain ⟨d, L, hdl⟩ := List.exists_cons_of_ne_nil hrevne
  refine ⟨d, L, ?_, ?_, ?_, hdl.symm⟩
  · have hmem : d ∈ (natDigitsRev n n).reverse := by rw [hdl]; exact .head _
    exact natDigitsRev_lt10 n n d (List.mem_reverse.mp hmem)
  · have hlast : (natDigitsRev n n).getLast? = some d := by
      rw [← List.head?_reverse, hdl]; rfl
    have := natDigitsRev_getLast?_pos h (le_refl n) hlast
    omega
  · unfold natDecimal
    rw [if_neg (by omega : ¬ n = 0)]
    show (natDigitsRev n n).reverse.map digitChar = _
    rw [hdl]; rfl

lemma scanIntBody_natDecimal (neg : Bool) {n : Nat} (h : 1 ≤ n) :
    scanIntBody neg (natDecimal n).data = some (applySign neg n) := by
  obtain ⟨d, L, hd10, hd0, hdata, hrev⟩ := natDecimal_spec h
  have hf := digitChar_facts hd10
  have hmem : ∀ x ∈ d :: L, x < 10 := by
    intro x hx
    have : x ∈ (natDigitsRev n n).reverse := by rw [← hrev]; exact hx
    exact natDigitsRev_lt10 n n x (List.mem_reverse.mp this)
  rw [hdata]
  simp only [scanIntBody, if_neg ((not_iff_not.mpr hf.2.2.2.2.2).mpr hd0)]
  have hcons : digitChar d :: L.map digitChar = (d :: L).map digitChar := rfl
  rw [hcons, scanDigits_digits (d :: L) false false 0 hmem (List.cons_ne_nil _ _)]
  have hval : (d :: L).foldl (fun x y => x * 10 + y) 0 = n := by
    rw [hrev, natDigitsRev_foldl 0 (le_refl n)]
    simp
  rw [hval]
  rfl

lemma goScanInt_natDecimal {n : Nat} (h : 1 ≤ n) :
    goScanInt (natDecimal n) = some (n : Int) := by
  obtain ⟨d, L, hd10, _, hdata, _⟩ := natDecimal_spec h
  have hf := digitChar_facts hd10
  unfold goScanInt
  have hsign : scanSign (natDecimal n).data = (false, (natDecimal n).data) := by
    rw [hdata]
    simp [scanSign, hf.2.1, hf.2.2.1]
  rw [hsign]
  exact scanIntBody_natDecimal false h

lemma goScanInt_intStr (v : Int) : goScanInt (intStr v) = some v := by
  rcases lt_trichotomy v 0 with hneg | hzero | hpos
  · have hm : 1 ≤ (-v).toNat := by omega
    unfold intStr
    rw [if_pos hneg]
    unfold goScanInt
    rw [String.data_append]
    have hdash : ("-" : String).data = ['-'] := rfl
    rw [hdash, List.cons_append, List.nil_append]
    have hsign : scanSign ('-' :: (natDecimal (-v).toNat).data) =
        (true, (natDecimal (-v).toNat).data) := by simp [scanSign]
    rw [hsign, scanIntBody_natDecimal true hm]
    have happ : applySign true (-v).toNat = v := by
      unfold applySign
      simp
      omega
    rw [happ]
  · subst hzero; rfl
  · have hm : 1 ≤ v.toNat := by omega
    unfold intStr
    rw [if_neg (by omega : ¬ v < 0)]
    rw [goScanInt_natDecimal hm]
    congr 1
    omega

lemma stringOfType_false_of_head (s : String) (c : Char) (l : List Char)
    (h : s.data = c :: l) (h1 : c ≠ '\'') (h2 : c ≠ '"') :
    stringOfType s = false := by
  unfold stringOfType
  rw [h]
  cases l with
  | nil => rfl
  | cons c2 rest => simp [h1, h2]

lemma stringOfType_intStr (v : Int) : stringOfType (intStr v) = false := by
  rcases lt_trichotomy v 0 with hneg | hzero | hpos
  · refine stringOfType_false_of_head (intStr v) '-'
      (natDecimal (-v).toNat).data ?_ (by decide) (by decide)
    unfold intStr
    rw [if_pos hneg, String.data_append]
    rfl
  · subst hzero; rfl
  · obtain ⟨d, L, hd10, _, hdata, _⟩ := natDecimal_spec (n := v.toNat) (by omega)
    have hf := digitChar_facts hd10
    refine stringOfType_false_of_head (intStr v) (digitChar d)
      (L.map digitChar) ?_ hf.2.2.2.1 hf.2.2.2.2.1
    unfold intStr
    rw [if_neg (by omega : ¬ v < 0)]
    exact hdata

lemma getValue_eq (env : LangEnv) (t : String) :
    getValue env t =
      if stringOfType t then .ok (stringNewValue t)
      else if intOfType t then .ok (intNewValue t)
      else if bigIntOfType t then .ok (bigIntNewValue t)
      else if floatOfType t then .ok (floatNewValue t)
      else if boolOfType t then .ok (boolNewValue t)
      else if varOfType t then .ok (varNewValue t)
      else .error ("Could not get type for token: " ++ t) := rfl

lemma goParseInt64_intStr_in {v : Int} (h1 : int64Min ≤ v) (h2 : v ≤ int64Max) :
    goParseInt64 (intStr v) = some v := by
  simp [goParseInt64, goScanInt_intStr v, h1, h2]

lemma goParseInt64_intStr_out {v : Int} (h : ¬(int64Min ≤ v ∧ v ≤ int64Max)) :
    goParseInt64 (intStr v) = none := by
  unfold goParseInt64
  rw [goScanInt_intStr v]
  simp only [Option.some_bind]
  rw [if_neg h]

/-! ## Claim C8 — classify ∘ render -/

/-- C8 (counterexample): the claim fails for BigInt values inside the 64-bit
range: `Int(5).to(BigInt)` produces the BigInt value 5, whose rendering "5"
classifies back as an Int, not a BigInt — the tag is not preserved. -/
theorem render_classify_c8_cex :
    (Value.intValue 5).to .bigIntType = .ok (.bigIntValue 5) ∧
    renderOf (.bigIntValue 5) = some "5" ∧
    getValue env0 "5" = .ok (some (.intValue 5)) ∧
    (decide ((Value.intValue 5).getValueType = (Value.bigIntValue 5).getValueType))
      = false :=
  ⟨rfl, rfl, rfl, rfl⟩

/-- C8 (amended): classifying the rendered text reproduces tag and payload
for String values whose payload is a quote-delimited token (the only ones the
classifier produces), for every Int value, for every Bool value, and for
BigInt values outside the 64-bit signed range (the only token-constructible
ones); it fails for BigInt values inside that range (see the counterexample),
and the Float variant is excluded (its strconv.FormatFloat shortest-form
rendering is not modelled; note that it renders e.g. 5.0 as "5", which
classifies as Int). -/
theorem render_classify_c8_amended (env : LangEnv) :
    (∀ p : String, stringOfType p = true →
      renderOf (.stringValue p) = some p ∧
      getValue env p = .ok (some (.stringValue p))) ∧
    (∀ n : Int, int64Min ≤ n ∧ n ≤ int64Max →
      renderOf (.intValue n) = some (intStr n) ∧
      getValue env (intStr n) = .ok (some (.intValue n))) ∧
    (∀ b : Bool,
      renderOf (.boolValue b) = some (if b then "true" else "false") ∧
      getValue env (if b then "true" else "false") = .ok (some (.boolValue b))) ∧
    (∀ n : Int, ¬(int64Min ≤ n ∧ n ≤ int64Max) →
      renderOf (.bigIntValue n) = some (intStr n) ∧
      getValue env (intStr n) = .ok (some (.bigIntValue n))) := by
  refine ⟨fun p hp => ⟨rfl, ?_⟩, fun n hn => ⟨rfl, ?_⟩,
    fun b => ⟨rfl, ?_⟩, fun n hn => ⟨rfl, ?_⟩⟩
  · rw [getValue_eq, if_pos hp]; rfl
  · have hs := stringOfType_intStr n
    have hp64 := goParseInt64_intStr_in hn.1 hn.2
    have hof : intOfType (intStr n) = true := by simp [intOfType, hp64]
    simp [getValue_eq, hs, hof, intNewValue, hp64]
  · cases b <;> rfl
  · have hs := stringOfType_intStr n
    have hpo := goParseInt64_intStr_out hn
    have hbig := goScanInt_intStr n
    simp [getValue_eq, hs, intOfType, hpo, bigIntOfType, hbig, bigIntNewValue]

/-- Witness for C8's amended theorem at one concrete value per variant. -/
theorem render_classify_c8_witness :
    (renderOf (.stringValue "'ab'") = some "'ab'" ∧
      getValue env0 "'ab'" = .ok (some (.stringValue "'ab'"))) ∧
    (renderOf (.intValue 42) = some (intStr 42) ∧
      getValue env0 (intStr 42) = .ok (some (.intValue 42))) ∧
    (renderOf (.boolValue true) = some (if true then "true" else "false") ∧
      getValue env0 (if true then "true" else "false") = .ok (some (.boolValue true))) ∧
    (renderOf (.bigIntValue (2 ^ 63)) = some (intStr (2 ^ 63)) ∧
      getValue env0 (intStr (2 ^ 63)) = .ok (some (.bigIntValue (2 ^ 63)))) :=
  ⟨(render_classify_c8_amended env0).1 "'ab'" rfl,
   (render_classify_c8_amended env0).2.1 42 ⟨by decide, by decide⟩,
   (render_classify_c8_amended env0).2.2.1 true,
   (render_classify_c8_amended env0).2.2.2 (2 ^ 63) (by decide)⟩

end EcLisp
